import Mathlib

/-
Verification development for the sans-server-middleware package.

The embedding below translates src/bin/middleware.js and src/bin/log.js
into Lean definitions:

* A registered hook is modelled by its registration-time data: a declared
  name, a declared parameter count (JS `hook.length`), and a behaviour
  function saying, for the error value the hook would receive, whether it
  calls its `done` continuation (with an optional error) or throws a value
  synchronously before calling `done`.  This is the shallow embedding of a
  hook callable: the executor only observes a hook through these actions.
* The registry (`Middleware`) carries the insertion-ordered weight map
  (a JS `Map`), the lazily cached ordered chain, and the length counter,
  exactly as the `_` store in the constructor does.
* `Middleware.sort` models `Middleware.prototype.sort`: it collects the
  weight keys in map insertion order and sorts them with the DEFAULT
  `Array.prototype.sort()` comparator, which compares the keys by their
  decimal string representation (UTF-16 code unit order), not numerically.
  `jsIntStr` is the ECMAScript ToString of an integral number.
* `runFn` models the internal `run(middleware, req, res, reverse)`
  function: it materialises the cached chain, dereferences `req.log`
  (a TypeError escapes synchronously when the request has no `log`),
  and then walks the chain, taking the next wrapper with `shift` (forward)
  or `pop` (reverse), threading the error slot from step to step, and
  settling with `resolved`/`rejected` when the chain is exhausted.  The
  walk is written with an explicit fuel equal to the chain length so that
  every definition stays structurally recursive and computable.
* The trace (`TEv`) records the log calls the executor makes, with the
  exact action/message strings built by the source, plus the structural
  `nest`/`release` span operations and the final `req.emit('log-report')`.
* Hooks are modelled as invoking their continuation exactly once (or
  throwing once); timing and asynchronous interleavings are out of scope.

Log spans (src/bin/log.js) are modelled separately by `LogSys`: spans are
allocated with identifiers, every leaf event draws its index from the one
root counter, and release moves the active pointer to the parent span.
-/

set_option linter.unusedVariables false

namespace SSM

/-- Action a hook takes when it is actually invoked: it either calls its
`done` continuation with an optional error value, or throws a value
synchronously before calling `done`. -/
inductive HookAction (ε : Type) where
  | callDone (err : Option ε)
  | throwSync (e : ε)

/-- Registration-time data of a hook callable: its declared function name
(empty string for an anonymous function), its declared parameter count
(JS `hook.length`), and its behaviour. -/
structure Hook (ε : Type) where
  name : String
  arity : Nat
  behavior : Option ε → HookAction ε

/-- Value passed to `add`: either a callable hook or any non-callable
value (carrying the string JS would interpolate into the error message). -/
inductive JsValue (ε : Type) where
  | func (h : Hook ε)
  | nonFunc (desc : String)

/-- Wrapper stored in a weight bucket.  `Middleware.prototype.add` resolves
the display name, computes `errHandler = hook.length >= 4` once, and tags
the wrapper with its weight. -/
structure WrappedHook (ε : Type) where
  name : String
  errHandler : Bool
  behavior : Option ε → HookAction ε
  weight : Int

/-- Error object thrown by `add` (`err.code = 'ESHOOK'`). -/
structure JsError where
  code : String
  message : String
  deriving DecidableEq

/-- Error escaping synchronously from `run`/`reverse` when `req.log` is
absent: reading `.nest` of `undefined` raises a TypeError. -/
inductive JsErr where
  | typeError
  deriving DecidableEq

/-- Registry state: the `_` store of a `Middleware` instance plus its name
and the `config.log.advanced` flag fixed by the constructor. -/
structure Middleware (ε : Type) where
  name : String
  advanced : Bool
  weights : List (Int × List (WrappedHook ε))
  ordered : Option (List (WrappedHook ε))
  length : Nat

/-- Fresh middleware instance (`new Middleware(name, config)`): empty weight
map, no cached ordering, zero length. -/
def Middleware.init (ε : Type) (name : String) (advanced : Bool) : Middleware ε :=
  ⟨name, advanced, [], none, 0⟩

/-- Decimal digit character. -/
def digitChar : Nat → Char
  | 0 => '0'
  | 1 => '1'
  | 2 => '2'
  | 3 => '3'
  | 4 => '4'
  | 5 => '5'
  | 6 => '6'
  | 7 => '7'
  | 8 => '8'
  | _ => '9'

/-- Decimal digits of a natural number, most significant first (fuelled so
that the definition is structural; fuel `n` always suffices). -/
def natDigitsAux : Nat → Nat → List Char
  | 0, n => [digitChar n]
  | fuel + 1, n => if n < 10 then [digitChar n] else natDigitsAux fuel (n / 10) ++ [digitChar (n % 10)]

/-- Decimal digits of a natural number. -/
def natDigits (n : Nat) : List Char := natDigitsAux n n

/-- Decimal string of a natural number (JS `String(n)`). -/
def natStr (n : Nat) : String := String.mk (natDigits n)

/-- ECMAScript ToString of an integral number: decimal digits with a
leading minus sign for negative values. -/
def jsIntStr (i : Int) : List Char :=
  if i < 0 then '-' :: natDigits i.natAbs else natDigits i.natAbs

/-- UTF-16 code-unit lexicographic strict order on character lists, the
comparison used by the default `Array.prototype.sort()` comparator. -/
def strLtB : List Char → List Char → Bool
  | _, [] => false
  | [], _ :: _ => true
  | a :: as, b :: bs =>
      if a.toNat < b.toNat then true
      else if b.toNat < a.toNat then false
      else strLtB as bs

/-- Default-sort comparison of two numeric keys: `String(a) <= String(b)`
in code-unit order. -/
def jsLeB (a b : Int) : Bool := !strLtB (jsIntStr b) (jsIntStr a)

/-- Insert a key into a list sorted by the default JS comparator. -/
def insertKey (x : Int) : List Int → List Int
  | [] => [x]
  | y :: t => if jsLeB x y then x :: y :: t else y :: insertKey x t

/-- Sort weight keys exactly as `keys.sort()` does: ascending by the
string representation of each number. -/
def jsKeySort : List Int → List Int
  | [] => []
  | x :: t => insertKey x (jsKeySort t)

/-- Lookup in the insertion-ordered weight map (`weights.get(key)`). -/
def mapGet {α : Type} : List (Int × α) → Int → Option α
  | [], _ => none
  | (k, v) :: t, k' => if k = k' then some v else mapGet t k'

/-- Push a wrapper onto the bucket of a key, appending a fresh bucket at
the end of the map when the key is new (`weights.set` + `push`). -/
def mapPush {β : Type} : List (Int × List β) → Int → β → List (Int × List β)
  | [], k, w => [(k, [w])]
  | (k', l) :: t, k, w =>
      if k' = k then (k', l ++ [w]) :: t else (k', l) :: mapPush t k w

/-- Flatten a list of buckets (`result.concat.apply(result, data)`). -/
def ljoin {α : Type} : List (List α) → List α
  | [] => []
  | l :: ls => l ++ ljoin ls

/-- Ordered chain computed by `Middleware.prototype.sort`: weight keys in
map order, sorted by the default string comparator, then each bucket in
registration order, concatenated. -/
def sortedChain {ε : Type} (m : Middleware ε) : List (WrappedHook ε) :=
  ljoin ((jsKeySort (m.weights.map Prod.fst)).map (fun k => (mapGet m.weights k).getD []))

/-- The `sort` method: store the ordered chain into the cache. -/
def Middleware.sort {ε : Type} (m : Middleware ε) : Middleware ε :=
  { m with ordered := some (sortedChain m) }

/-- Chain used by a run: the cache when present, else the sort result
(`if (!middleware._.ordered) middleware.sort()`). -/
def effChain {ε : Type} (m : Middleware ε) : List (WrappedHook ε) :=
  match m.ordered with
  | some o => o
  | none => sortedChain m

/-- Two-argument `add(weight, hook)`.  A non-callable second argument
throws the ESHOOK error before any state is touched, so the registry
component of the result is the unchanged input.  A callable hook is
wrapped (name fallback `bucket length + 1`, `errHandler = arity >= 4`),
pushed on its weight bucket, the ordered cache is destroyed and the
length incremented. -/
def Middleware.add {ε : Type} (m : Middleware ε) (weight : Int) (v : JsValue ε) :
    Middleware ε × Option JsError :=
  match v with
  | JsValue.nonFunc d =>
      (m, some ⟨"ESHOOK", "Invalid hook specified. Expected a function. Received: " ++ d⟩)
  | JsValue.func h =>
      let blen := ((mapGet m.weights weight).getD []).length
      let nm := if h.name = "" then natStr (blen + 1) else h.name
      let w : WrappedHook ε := ⟨nm, decide (4 ≤ h.arity), h.behavior, weight⟩
      ({ m with weights := mapPush m.weights weight w, ordered := none, length := m.length + 1 }, none)

/-- One-argument `add(hook)`: a callable first argument is registered at
weight 0; otherwise `hook` stays `undefined` and the ESHOOK error reports
`Received: undefined`. -/
def Middleware.add1 {ε : Type} (m : Middleware ε) (v : JsValue ε) :
    Middleware ε × Option JsError :=
  match v with
  | JsValue.func h => Middleware.add m 0 (JsValue.func h)
  | JsValue.nonFunc _ =>
      (m, some ⟨"ESHOOK", "Invalid hook specified. Expected a function. Received: undefined"⟩)

/-- The `from` method: `Array.from(iterable).forEach(hook => this.add(0, hook))`
over a sequence of callable hooks. -/
def Middleware.fromHooks {ε : Type} (m : Middleware ε) (hs : List (Hook ε)) : Middleware ε :=
  hs.foldl (fun acc h => (Middleware.add acc 0 (JsValue.func h)).1) m

/-- Trace event recorded while a chain runs: a log call made by the
executor (`TEv.ev action message`), the creation of a nested span
(`log.nest`/`parentLog.nest`), a span release, or the root-level
`req.emit('log-report', ...)`. -/
inductive TEv where
  | nest (category : String)
  | ev (action message : String)
  | release
  | emitReport
  deriving DecidableEq

/-- Fate of the promise returned by the internal `run` function. -/
inductive Settle (ε : Type) where
  | resolved
  | rejected (e : ε)
  deriving DecidableEq

/-- Observable outcome of one chain walk: the emitted log trace, the
wrappers dispatched in order, and the settlement. -/
structure RunOut (ε : Type) where
  trace : List TEv
  dispatched : List (WrappedHook ε)
  settle : Settle ε

/-- Result of one `wrapped(parentLog, err, req, res, next)` call: the log
activity it performed, whether the underlying hook function was invoked,
and the error value it handed to `next`. -/
structure StepRes (ε : Type) where
  events : List TEv
  invoked : Bool
  nextErr : Option ε

/-- One wrapper call, translated branch by branch from the `wrapped`
closure in `Middleware.prototype.add`:

* always nest a `middleware <name>` span first;
* an in-flight error and a non-error hook: log a `skipped` event and pass
  the error to `next` unchanged, without invoking the hook;
* no error and an error-handling hook: log a `skipped` event and call
  `next()` with no error, without invoking the hook;
* otherwise invoke the hook.  When it calls `done(e)`, `done` logs the
  `middleware end` event (non-advanced mode), releases the span and calls
  `next(e)`.  When it throws, the catch block calls `next(thrown)`
  directly: no end event and no release. -/
def wrappedStep {ε : Type} (adv : Bool) (w : WrappedHook ε) (err : Option ε) : StepRes ε :=
  let nestE := TEv.nest ("middleware " ++ w.name)
  if err.isSome && !w.errHandler then
    ⟨[nestE, TEv.ev "skipped" ("Hook " ++ (if adv then "" else w.name ++ " ") ++ "is not for error handling")],
     false, err⟩
  else if !err.isSome && w.errHandler then
    ⟨[nestE, TEv.ev "skipped" ("Hook " ++ (if adv then "" else w.name ++ " ") ++ "is for error handling")],
     false, none⟩
  else
    let startE := if adv then [] else [TEv.ev "middleware start" w.name]
    match w.behavior err with
    | HookAction.callDone e =>
        ⟨[nestE] ++ startE ++ (if adv then [] else [TEv.ev "middleware end" w.name]) ++ [TEv.release],
         true, e⟩
    | HookAction.throwSync e =>
        ⟨[nestE] ++ startE, true, some e⟩

/-- Take the next wrapper from the snapshot array:
`chain[reverse ? 'pop' : 'shift']()`. -/
def takeNext {ε : Type} (rev : Bool) (chain : List (WrappedHook ε)) :
    Option (WrappedHook ε × List (WrappedHook ε)) :=
  if rev then
    match chain.getLast? with
    | none => none
    | some w => some (w, chain.dropLast)
  else
    match chain with
    | [] => none
    | w :: rest => some (w, rest)

/-- End-of-chain branch of `next`: log the terminal event, release the
runner span, emit the report on the root path, and settle. -/
def finishRun {ε : Type} (pre nm : String) (isRoot : Bool) (err : Option ε) : RunOut ε :=
  match err with
  | some e =>
      ⟨[TEv.ev (pre ++ "rejected") nm, TEv.release] ++ (if isRoot then [TEv.emitReport] else []),
       [], Settle.rejected e⟩
  | none =>
      ⟨[TEv.ev (pre ++ "resolved") nm, TEv.release] ++ (if isRoot then [TEv.emitReport] else []),
       [], Settle.resolved⟩

/-- Chain walk of the `next` continuation, carried by fuel so that the
recursion is structural; the fuel is always the chain length, and each
`shift`/`pop` removes exactly one element per step. -/
def chainLoopFuel {ε : Type} (adv : Bool) (pre nm : String) (isRoot rev : Bool) :
    Nat → List (WrappedHook ε) → Option ε → RunOut ε
  | 0, _, err => finishRun pre nm isRoot err
  | fuel + 1, chain, err =>
      match takeNext rev chain with
      | none => finishRun pre nm isRoot err
      | some (w, rest) =>
          let st := wrappedStep adv w err
          let t := chainLoopFuel adv pre nm isRoot rev fuel rest st.nextErr
          ⟨st.events ++ t.trace, w :: t.dispatched, t.settle⟩

/-- Full chain walk starting from the whole snapshot. -/
def chainLoop {ε : Type} (adv : Bool) (pre nm : String) (isRoot rev : Bool)
    (chain : List (WrappedHook ε)) (err : Option ε) : RunOut ε :=
  chainLoopFuel adv pre nm isRoot rev chain.length chain err

/-- Error value still in flight when the walk runs out of wrappers;
the same recursion as `chainLoopFuel` restricted to the error slot. -/
def errAfterFuel {ε : Type} (adv rev : Bool) :
    Nat → List (WrappedHook ε) → Option ε → Option ε
  | 0, _, err => err
  | fuel + 1, chain, err =>
      match takeNext rev chain with
      | none => err
      | some (w, rest) => errAfterFuel adv rev fuel rest (wrappedStep adv w err).nextErr

/-- Error left at the end of a full walk. -/
def errAfter {ε : Type} (adv rev : Bool) (chain : List (WrappedHook ε)) (err : Option ε) :
    Option ε :=
  errAfterFuel adv rev chain.length chain err

/-- Settlement corresponding to a final error slot. -/
def settleOfErr {ε : Type} : Option ε → Settle ε
  | some e => Settle.rejected e
  | none => Settle.resolved

/-- The `log` member of a request object, when present: the only part the
executor reads synchronously is whether it has a `nest` method
(`const isRoot = !req.log.nest`). -/
structure ReqLog where
  hasNest : Bool

/-- Request object as seen by the executor: it may or may not carry a
`log` member. -/
structure Req where
  log : Option ReqLog

/-- Internal `run(middleware, req, res, reverse)`.  The chain cache is
materialised first, then `req.log.nest` is dereferenced — a request
without `log` makes the whole call throw a TypeError synchronously, before
the promise exists and before any wrapper is dispatched.  Otherwise the
runner span is created (root: a fresh tree; nested: a child of `req.log`),
the `run`/`reverse-run` event is logged, and the walk starts. -/
def runFn {ε : Type} (m : Middleware ε) (req : Req) (rev : Bool) :
    Except JsErr (RunOut ε) :=
  let chain := effChain m
  match req.log with
  | none => Except.error JsErr.typeError
  | some rl =>
      let isRoot := !rl.hasNest
      let pre := if m.advanced then "" else "hook-"
      let initl := (if isRoot then ([] : List TEv) else [TEv.nest "hook-runner"]) ++
        [TEv.ev (pre ++ (if rev then "reverse-run" else "run")) m.name]
      let o := chainLoop m.advanced pre m.name isRoot rev chain none
      Except.ok ⟨initl ++ o.trace, o.dispatched, o.settle⟩

/-- Argument the completion callback receives: `promise.then(next, next)`
passes `undefined` on resolution and the rejection reason on rejection. -/
def settleArg {ε : Type} : Settle ε → Option ε
  | Settle.resolved => none
  | Settle.rejected e => some e

/-- Public `Middleware.prototype.run` without a callback: the promise. -/
def Middleware.run {ε : Type} (m : Middleware ε) (req : Req) : Except JsErr (RunOut ε) :=
  runFn m req false

/-- Public `Middleware.prototype.reverse` without a callback. -/
def Middleware.reverse {ε : Type} (m : Middleware ε) (req : Req) : Except JsErr (RunOut ε) :=
  runFn m req true

/-- Public `run` with a callback: the value the callback is invoked with. -/
def Middleware.runCb {ε : Type} (m : Middleware ε) (req : Req) : Except JsErr (Option ε) :=
  (runFn m req false).map (fun o => settleArg o.settle)

/-- Public `reverse` with a callback. -/
def Middleware.reverseCb {ε : Type} (m : Middleware ε) (req : Req) : Except JsErr (Option ε) :=
  (runFn m req true).map (fun o => settleArg o.settle)

/-- Trace of a run result (empty for the synchronous TypeError escape). -/
def traceOf {ε : Type} : Except JsErr (RunOut ε) → List TEv
  | Except.ok o => o.trace
  | Except.error _ => []

/-- Settlement of a run result, when one exists. -/
def settleOf {ε : Type} : Except JsErr (RunOut ε) → Option (Settle ε)
  | Except.ok o => some o.settle
  | Except.error _ => none

/-- Names of the wrappers dispatched by a run, in dispatch order. -/
def dispatchNames {ε : Type} : Except JsErr (RunOut ε) → List String
  | Except.ok o => o.dispatched.map WrappedHook.name
  | Except.error _ => []

/-- Span node of one log tree (src/bin/log.js): spans are identified by
allocation order; the root has identifier 0 and no parent. -/
structure SpanRec where
  id : Nat
  category : String
  parent : Option Nat
  depth : Nat
  deriving DecidableEq

/-- Leaf event recorded by `Log.prototype.event`: the span it was recorded
on, the action and message, whether that span was the active one at record
time, and the index drawn from the root counter. -/
structure LeafEvt where
  spanId : Nat
  action : String
  message : String
  active : Bool
  index : Nat
  deriving DecidableEq

/-- State of one log span tree: the allocated spans, the single root
counter (`this.root.index`), the active span pointer (`this.root.active`),
and all leaf events in record order. -/
structure LogSys where
  spans : List SpanRec
  rootIndex : Nat
  active : Option Nat
  evts : List LeafEvt
  deriving DecidableEq

/-- Fresh tree rooted at `new Log(category, config)`: the constructor sets
`this.root.active = this`. -/
def initLog (cat : String) : LogSys :=
  ⟨[⟨0, cat, none, 0⟩], 0, some 0, []⟩

/-- Operations callable on a span object held by reference: record a leaf
event on it, nest a child span under it, or release it. -/
inductive LogOp where
  | event (sid : Nat) (action message : String)
  | nest (sid : Nat) (category : String)
  | release (sid : Nat)

/-- Lookup of an allocated span. -/
def findSpan : List SpanRec → Nat → Option SpanRec
  | [], _ => none
  | s :: t, i => if s.id = i then some s else findSpan t i

/-- Apply one operation; an operation naming a span that was never
allocated is a no-op (in JS such a call cannot be made, because the span
object itself is the reference). `event` stores
`index = this.root.index++` and `active = (this.root.active === this)`;
`nest` allocates a child span and makes it active (the `Log` constructor
sets `root.active`); `release` moves the active pointer to the parent. -/
def applyOp (s : LogSys) : LogOp → LogSys
  | LogOp.event sid a msg =>
      match findSpan s.spans sid with
      | none => s
      | some _ =>
          { s with rootIndex := s.rootIndex + 1,
                   evts := s.evts ++ [⟨sid, a, msg, s.active = some sid, s.rootIndex⟩] }
  | LogOp.nest sid cat =>
      match findSpan s.spans sid with
      | none => s
      | some sp =>
          let nid := s.spans.length
          { s with spans := s.spans ++ [⟨nid, cat, some sid, sp.depth + 1⟩], active := some nid }
  | LogOp.release sid =>
      match findSpan s.spans sid with
      | none => s
      | some sp => { s with active := sp.parent }

/-- Apply a whole sequence of span operations. -/
def applyOps (s : LogSys) (ops : List LogOp) : LogSys :=
  ops.foldl applyOp s

/-- Wrapped sequence that registering a list of callable hooks at weight 0
produces, starting from bucket length `n`: each hook keeps its declared
name when nonempty, else gets `String(bucket length + 1)`, and is
classified by its arity. -/
def specWrap {ε : Type} : List (Hook ε) → Nat → List (WrappedHook ε)
  | [], _ => []
  | h :: t, n =>
      ⟨if h.name = "" then natStr (n + 1) else h.name, decide (4 ≤ h.arity), h.behavior, 0⟩ ::
        specWrap t (n + 1)

/-- Hook registered at weight 2 in the C1 failing input. -/
def hookW2 : Hook Nat := ⟨"a", 3, fun _ => HookAction.callDone none⟩

/-- Hook registered at weight 10 in the C1 failing input. -/
def hookW10 : Hook Nat := ⟨"b", 3, fun _ => HookAction.callDone none⟩

/-- C1 failing input: hook `a` at weight 2, then hook `b` at weight 10. -/
def mW2W10 : Middleware Nat :=
  (Middleware.add ((Middleware.add (Middleware.init Nat "m" true) 2 (JsValue.func hookW2)).1)
    10 (JsValue.func hookW10)).1

/-- Hook that throws the value 7 synchronously (C4 counterexample). -/
def hookThrow7 : Hook Nat := ⟨"h", 3, fun _ => HookAction.throwSync 7⟩

/-- Hook that calls `done(7)` (C4 counterexample). -/
def hookDone7 : Hook Nat := ⟨"h", 3, fun _ => HookAction.callDone (some 7)⟩

/-- Registry holding only the throwing hook, in non-advanced log mode. -/
def mThrow7 : Middleware Nat :=
  (Middleware.add (Middleware.init Nat "m" false) 0 (JsValue.func hookThrow7)).1

/-- Registry holding only the `done(7)` hook, in non-advanced log mode. -/
def mDone7 : Middleware Nat :=
  (Middleware.add (Middleware.init Nat "m" false) 0 (JsValue.func hookDone7)).1

/-- Shift takes the head of the snapshot. -/
theorem takeNext_cons {ε : Type} (w : WrappedHook ε) (rest : List (WrappedHook ε)) :
    takeNext false (w :: rest) = some (w, rest) := rfl

/-- Pop takes the last element of the snapshot. -/
theorem takeNext_concat {ε : Type} (l : List (WrappedHook ε)) (a : WrappedHook ε) :
    takeNext true (l ++ [a]) = some (a, l) := by
  simp [takeNext]

/-- Unfolding of one successful walk step. -/
theorem chainLoopFuel_step {ε : Type} (adv : Bool) (pre nm : String) (isRoot rev : Bool)
    (f : Nat) (chain rest : List (WrappedHook ε)) (w : WrappedHook ε) (err : Option ε)
    (h : takeNext rev chain = some (w, rest)) :
    chainLoopFuel adv pre nm isRoot rev (f + 1) chain err =
      ⟨(wrappedStep adv w err).events ++
         (chainLoopFuel adv pre nm isRoot rev f rest (wrappedStep adv w err).nextErr).trace,
       w :: (chainLoopFuel adv pre nm isRoot rev f rest (wrappedStep adv w err).nextErr).dispatched,
       (chainLoopFuel adv pre nm isRoot rev f rest (wrappedStep adv w err).nextErr).settle⟩ := by
  simp only [chainLoopFuel, h]

/-- Forward full-walk unfolding on a nonempty chain. -/
theorem chainLoop_cons {ε : Type} (adv : Bool) (pre nm : String) (isRoot : Bool)
    (w : WrappedHook ε) (rest : List (WrappedHook ε)) (err : Option ε) :
    chainLoop adv pre nm isRoot false (w :: rest) err =
      ⟨(wrappedStep adv w err).events ++
         (chainLoop adv pre nm isRoot false rest (wrappedStep adv w err).nextErr).trace,
       w :: (chainLoop adv pre nm isRoot false rest (wrappedStep adv w err).nextErr).dispatched,
       (chainLoop adv pre nm isRoot false rest (wrappedStep adv w err).nextErr).settle⟩ := by
  have := chainLoopFuel_step adv pre nm isRoot false rest.length (w :: rest) rest w err
    (takeNext_cons w rest)
  simpa [chainLoop] using this

/-- Reverse full-walk unfolding on a nonempty chain: pop processes the
last element first. -/
theorem chainLoop_snoc {ε : Type} (adv : Bool) (pre nm : String) (isRoot : Bool)
    (rest : List (WrappedHook ε)) (w : WrappedHook ε) (err : Option ε) :
    chainLoop adv pre nm isRoot true (rest ++ [w]) err =
      ⟨(wrappedStep adv w err).events ++
         (chainLoop adv pre nm isRoot true rest (wrappedStep adv w err).nextErr).trace,
       w :: (chainLoop adv pre nm isRoot true rest (wrappedStep adv w err).nextErr).dispatched,
       (chainLoop adv pre nm isRoot true rest (wrappedStep adv w err).nextErr).settle⟩ := by
  have hl : (rest ++ [w]).length = rest.length + 1 := by simp
  have := chainLoopFuel_step adv pre nm isRoot true rest.length (rest ++ [w]) rest w err
    (takeNext_concat rest w)
  simp only [chainLoop, hl]
  exact this

/-- The exhausted walk settles from the error slot. -/
theorem finishRun_settle {ε : Type} (pre nm : String) (isRoot : Bool) (err : Option ε) :
    (finishRun pre nm isRoot err).settle = settleOfErr err := by
  cases err <;> rfl

/-- The exhausted walk dispatches nothing further. -/
theorem finishRun_dispatched {ε : Type} (pre nm : String) (isRoot : Bool) (err : Option ε) :
    (finishRun pre nm isRoot err).dispatched = [] := by
  cases err <;> rfl

/-- A forward walk dispatches exactly the snapshot, in order, whatever
the error slot holds along the way. -/
theorem chainLoopFuel_dispatched_fwd {ε : Type} (adv : Bool) (pre nm : String) (isRoot : Bool) :
    ∀ (f : Nat) (chain : List (WrappedHook ε)) (err : Option ε), chain.length ≤ f →
      (chainLoopFuel adv pre nm isRoot false f chain err).dispatched = chain := by
  intro f
  induction f with
  | zero =>
      intro chain err h
      have hc : chain = [] := List.length_eq_zero.mp (Nat.le_zero.mp h)
      subst hc
      exact finishRun_dispatched pre nm isRoot err
  | succ f ih =>
      intro chain err h
      cases chain with
      | nil => exact finishRun_dispatched pre nm isRoot err
      | cons w rest =>
          rw [chainLoopFuel_step adv pre nm isRoot false f (w :: rest) rest w err
            (takeNext_cons w rest)]
          have hr : rest.length ≤ f := by
            simpa using Nat.succ_le_succ_iff.mp (by simpa using h)
          rw [ih rest _ hr]

/-- A reverse walk dispatches exactly the reversed snapshot. -/
theorem chainLoopFuel_dispatched_rev {ε : Type} (adv : Bool) (pre nm : String) (isRoot : Bool) :
    ∀ (f : Nat) (chain : List (WrappedHook ε)) (err : Option ε), chain.length ≤ f →
      (chainLoopFuel adv pre nm isRoot true f chain err).dispatched = chain.reverse := by
  intro f
  induction f with
  | zero =>
      intro chain err h
      have hc : chain = [] := List.length_eq_zero.mp (Nat.le_zero.mp h)
      subst hc
      exact finishRun_dispatched pre nm isRoot err
  | succ f ih =>
      intro chain err h
      rcases chain.eq_nil_or_concat with rfl | ⟨l, a, rfl⟩
      · exact finishRun_dispatched pre nm isRoot err
      · simp only [List.concat_eq_append] at h ⊢
        rw [chainLoopFuel_step adv pre nm isRoot true f (l ++ [a]) l a err
          (takeNext_concat l a)]
        have hr : l.length ≤ f := by
          have := h
          simp only [List.length_append, List.length_cons, List.length_nil] at this
          omega
        rw [ih l _ hr]
        simp

/-- The settlement of a walk is determined by the error left at its end. -/
theorem chainLoopFuel_settle {ε : Type} (adv : Bool) (pre nm : String) (isRoot rev : Bool) :
    ∀ (f : Nat) (chain : List (WrappedHook ε)) (err : Option ε),
      (chainLoopFuel adv pre nm isRoot rev f chain err).settle =
        settleOfErr (errAfterFuel adv rev f chain err) := by
  intro f
  induction f with
  | zero => intro chain err; exact finishRun_settle pre nm isRoot err
  | succ f ih =>
      intro chain err
      cases h : takeNext rev chain with
      | none => simp only [chainLoopFuel, errAfterFuel, h]; exact finishRun_settle pre nm isRoot err
      | some p =>
          obtain ⟨w, rest⟩ := p
          rw [chainLoopFuel_step adv pre nm isRoot rev f chain rest w err h]
          simp only [errAfterFuel, h]
          exact ih rest _

/-- A root walk always ends its trace with the `log-report` emission. -/
theorem chainLoopFuel_trace_root {ε : Type} (adv : Bool) (pre nm : String) (rev : Bool) :
    ∀ (f : Nat) (chain : List (WrappedHook ε)) (err : Option ε),
      (chainLoopFuel adv pre nm true rev f chain err).trace ≠ [] ∧
      (chainLoopFuel adv pre nm true rev f chain err).trace.getLast? = some TEv.emitReport := by
  intro f
  induction f with
  | zero =>
      intro chain err
      cases err <;> simp [chainLoopFuel, finishRun]
  | succ f ih =>
      intro chain err
      cases h : takeNext rev chain with
      | none =>
          simp only [chainLoopFuel, h]
          cases err <;> simp [finishRun]
      | some p =>
          obtain ⟨w, rest⟩ := p
          rw [chainLoopFuel_step adv pre nm true rev f chain rest w err h]
          obtain ⟨h1, h2⟩ := ih rest (wrappedStep adv w err).nextErr
          refine ⟨by simp [h1], ?_⟩
          simpa [List.getLast?_append_of_ne_nil _ h1] using h2

/-- A map holding the single key 0 sorts to its one bucket. -/
theorem sortedChain_single {ε : Type} (m : Middleware ε) (l : List (WrappedHook ε))
    (h : m.weights = [(0, l)]) : sortedChain m = l := by
  simp [sortedChain, h, jsKeySort, insertKey, mapGet, ljoin]

/-- Folding weight-0 registrations extends the single bucket by the
expected wrapped sequence. -/
theorem fromHooks_weights {ε : Type} :
    ∀ (hs : List (Hook ε)) (m : Middleware ε) (ws : List (WrappedHook ε)),
      m.weights = [(0, ws)] →
      (Middleware.fromHooks m hs).weights = [(0, ws ++ specWrap hs ws.length)] := by
  intro hs
  induction hs with
  | nil => intro m ws h; simpa [Middleware.fromHooks, specWrap] using h
  | cons hk t ih =>
      intro m ws h
      show (Middleware.fromHooks (Middleware.add m 0 (JsValue.func hk)).1 t).weights = _
      have hw : (Middleware.add m 0 (JsValue.func hk)).1.weights = [(0, ws ++ [⟨if hk.name = "" then natStr (ws.length + 1) else hk.name, decide (4 ≤ hk.arity), hk.behavior, 0⟩])] := by
        simp [Middleware.add, h, mapGet, mapPush]
      rw [ih _ _ hw]
      simp [specWrap, List.append_assoc]

/-- Folding weight-0 registrations never restores the ordered cache. -/
theorem fromHooks_ordered {ε : Type} :
    ∀ (hs : List (Hook ε)) (m : Middleware ε), m.ordered = none →
      (Middleware.fromHooks m hs).ordered = none := by
  intro hs
  induction hs with
  | nil => intro m h; simpa [Middleware.fromHooks] using h
  | cons hk t ih =>
      intro m h
      show (Middleware.fromHooks (Middleware.add m 0 (JsValue.func hk)).1 t).ordered = none
      exact ih _ rfl

/-- One span operation preserves the root-counter invariant: the counter
equals the number of recorded events, and the recorded indices are
0, 1, 2, ... in record order. -/
theorem applyOp_inv (s : LogSys) (op : LogOp)
    (h1 : s.rootIndex = s.evts.length)
    (h2 : s.evts.map LeafEvt.index = List.range s.evts.length) :
    (applyOp s op).rootIndex = (applyOp s op).evts.length ∧
    (applyOp s op).evts.map LeafEvt.index = List.range (applyOp s op).evts.length := by
  cases op with
  | event sid a msg =>
      cases h : findSpan s.spans sid with
      | none => simpa [applyOp, h] using ⟨h1, h2⟩
      | some sp =>
          refine ⟨?_, ?_⟩
          · simp [applyOp, h, h1]
          · simp [applyOp, h, h1, h2, List.range_succ]
  | nest sid cat =>
      cases h : findSpan s.spans sid with
      | none => simpa [applyOp, h] using ⟨h1, h2⟩
      | some sp => simpa [applyOp, h] using ⟨h1, h2⟩
  | release sid =>
      cases h : findSpan s.spans sid with
      | none => simpa [applyOp, h] using ⟨h1, h2⟩
      | some sp => simpa [applyOp, h] using ⟨h1, h2⟩

/-- A whole operation sequence preserves the root-counter invariant. -/
theorem applyOps_inv :
    ∀ (ops : List LogOp) (s : LogSys),
      s.rootIndex = s.evts.length →
      s.evts.map LeafEvt.index = List.range s.evts.length →
      (applyOps s ops).rootIndex = (applyOps s ops).evts.length ∧
      (applyOps s ops).evts.map LeafEvt.index = List.range (applyOps s ops).evts.length := by
  intro ops
  induction ops with
  | nil => intro s h1 h2; exact ⟨h1, h2⟩
  | cons op t ih =>
      intro s h1 h2
      have h := applyOp_inv s op h1 h2
      exact ih (applyOp s op) h.1 h.2

/-- C1: the ordering algorithm does NOT sort the distinct weight keys in
ascending numeric order.  `keys.sort()` runs the default comparator, which
compares the keys by their decimal string representation; on the failing
input (hook `a` at weight 2, hook `b` at weight 10) the string "10"
precedes the string "2", so the weight-10 hook is sorted first and a
forward run dispatches `b` before `a`, violating the claimed numeric
order. -/
theorem c1_weight_keys_sorted_as_strings :
    jsKeySort [2, 10] = [10, 2] ∧
    (sortedChain mW2W10).map WrappedHook.name = ["b", "a"] ∧
    dispatchNames (Middleware.run mW2W10 ⟨some ⟨false⟩⟩) = ["b", "a"] := by
  decide

/-- C2: for every registry and request carrying a log member, `reverse`
dispatches exactly the reversal of the whole flattened execution sequence
that `run` dispatches, whatever the hooks do with the error slot. -/
theorem c2_reverse_dispatches_reversal (ε : Type) (m : Middleware ε) (rl : ReqLog) :
    ∃ oF oR : RunOut ε,
      Middleware.run m ⟨some rl⟩ = Except.ok oF ∧
      Middleware.reverse m ⟨some rl⟩ = Except.ok oR ∧
      oF.dispatched = effChain m ∧
      oR.dispatched = (effChain m).reverse := by
  refine ⟨_, _, rfl, rfl, ?_, ?_⟩
  · show (chainLoopFuel m.advanced (if m.advanced then "" else "hook-") m.name (!rl.hasNest)
      false (effChain m).length (effChain m) none).dispatched = effChain m
    exact chainLoopFuel_dispatched_fwd m.advanced _ m.name _ _ _ none (le_refl _)
  · show (chainLoopFuel m.advanced (if m.advanced then "" else "hook-") m.name (!rl.hasNest)
      true (effChain m).length (effChain m) none).dispatched = (effChain m).reverse
    exact chainLoopFuel_dispatched_rev m.advanced _ m.name _ _ _ none (le_refl _)

/-- C3: a wrapper whose hook does not match the error state (error in
flight and a non-error hook, or no error and an error-handling hook) never
invokes the hook function, hands the continuation exactly the unchanged
error state, and the walk still consumes the wrapper and continues with
the rest of the chain in both forward and reverse mode. -/
theorem c3_skip_preserves_error_and_advances (ε : Type) (adv : Bool) (w : WrappedHook ε)
    (err : Option ε)
    (hskip : (err.isSome && !w.errHandler) = true ∨ (!err.isSome && w.errHandler) = true) :
    (wrappedStep adv w err).invoked = false ∧
    (wrappedStep adv w err).nextErr = err ∧
    (∀ (pre nm : String) (isRoot : Bool) (rest : List (WrappedHook ε)),
      chainLoop adv pre nm isRoot false (w :: rest) err =
        ⟨(wrappedStep adv w err).events ++ (chainLoop adv pre nm isRoot false rest err).trace,
         w :: (chainLoop adv pre nm isRoot false rest err).dispatched,
         (chainLoop adv pre nm isRoot false rest err).settle⟩) ∧
    (∀ (pre nm : String) (isRoot : Bool) (rest : List (WrappedHook ε)),
      chainLoop adv pre nm isRoot true (rest ++ [w]) err =
        ⟨(wrappedStep adv w err).events ++ (chainLoop adv pre nm isRoot true rest err).trace,
         w :: (chainLoop adv pre nm isRoot true rest err).dispatched,
         (chainLoop adv pre nm isRoot true rest err).settle⟩) := by
  have hstep : (wrappedStep adv w err).invoked = false ∧ (wrappedStep adv w err).nextErr = err := by
    cases err with
    | none =>
        rcases hskip with h | h
        · simp at h
        · have he : w.errHandler = true := by simpa using h
          simp [wrappedStep, he]
    | some e =>
        rcases hskip with h | h
        · have he : w.errHandler = false := by simpa using h
          simp [wrappedStep, he]
        · simp at h
  refine ⟨hstep.1, hstep.2, ?_, ?_⟩
  · intro pre nm isRoot rest
    rw [chainLoop_cons, hstep.2]
  · intro pre nm isRoot rest
    rw [chainLoop_snoc, hstep.2]

/-- C3 witness: a non-error hook with an error in flight is skipped and
the error value 5 is forwarded unchanged. -/
theorem c3_skip_witness :
    (wrappedStep false (⟨"x", false, fun _ => HookAction.callDone none, 0⟩ : WrappedHook Nat)
      (some 5)).invoked = false ∧
    (wrappedStep false (⟨"x", false, fun _ => HookAction.callDone none, 0⟩ : WrappedHook Nat)
      (some 5)).nextErr = some 5 := by
  have h := c3_skip_preserves_error_and_advances Nat false
    ⟨"x", false, fun _ => HookAction.callDone none, 0⟩ (some 5) (Or.inl rfl)
  exact ⟨h.1, h.2.1⟩

/-- C4 counterexample: on a one-hook registry in non-advanced mode, the
run where the hook throws 7 and the run where it calls `done(7)` settle
identically and dispatch the same hook, but their log traces differ: the
throw path omits the `middleware end` event and the span release, so the
claimed equality of logging events fails. -/
theorem c4_sync_throw_trace_differs :
    traceOf (Middleware.run mThrow7 ⟨some ⟨false⟩⟩) ≠
      traceOf (Middleware.run mDone7 ⟨some ⟨false⟩⟩) ∧
    settleOf (Middleware.run mThrow7 ⟨some ⟨false⟩⟩) =
      settleOf (Middleware.run mDone7 ⟨some ⟨false⟩⟩) ∧
    dispatchNames (Middleware.run mThrow7 ⟨some ⟨false⟩⟩) =
      dispatchNames (Middleware.run mDone7 ⟨some ⟨false⟩⟩) := by
  decide

/-- C4 (amended): a hook that throws a value synchronously before calling
`done` yields a run with the same settlement, the same dispatch sequence
and the same downstream behaviour as the run where it calls
`done(thrownValue)` — and the same logging events, except that the
throwing run omits the hook end event (non-advanced mode) and the span
release that the `done` path performs. -/
theorem c4_sync_throw_equiv_except_end_release (ε : Type) (adv : Bool) (nm : String)
    (errH : Bool) (wt : Int) (bT bD : Option ε → HookAction ε) (err0 : Option ε) (e : ε)
    (hT : bT err0 = HookAction.throwSync e) (hD : bD err0 = HookAction.callDone (some e))
    (hrun : err0.isSome = errH)
    (pre mwNm : String) (isRoot : Bool) (rest : List (WrappedHook ε)) :
    (chainLoop adv pre mwNm isRoot false (⟨nm, errH, bT, wt⟩ :: rest) err0).settle =
      (chainLoop adv pre mwNm isRoot false (⟨nm, errH, bD, wt⟩ :: rest) err0).settle ∧
    (chainLoop adv pre mwNm isRoot false (⟨nm, errH, bT, wt⟩ :: rest) err0).dispatched.map
        WrappedHook.name =
      (chainLoop adv pre mwNm isRoot false (⟨nm, errH, bD, wt⟩ :: rest) err0).dispatched.map
        WrappedHook.name ∧
    ∃ t : List TEv,
      (chainLoop adv pre mwNm isRoot false (⟨nm, errH, bT, wt⟩ :: rest) err0).trace =
        [TEv.nest ("middleware " ++ nm)] ++ (if adv then [] else [TEv.ev "middleware start" nm]) ++ t ∧
      (chainLoop adv pre mwNm isRoot false (⟨nm, errH, bD, wt⟩ :: rest) err0).trace =
        [TEv.nest ("middleware " ++ nm)] ++ (if adv then [] else [TEv.ev "middleware start" nm]) ++
          ((if adv then [] else [TEv.ev "middleware end" nm]) ++ [TEv.release]) ++ t := by
  have hstepT : wrappedStep adv (⟨nm, errH, bT, wt⟩ : WrappedHook ε) err0 =
      ⟨[TEv.nest ("middleware " ++ nm)] ++ (if adv then [] else [TEv.ev "middleware start" nm]),
       true, some e⟩ := by
    cases err0 with
    | none =>
        have he : errH = false := by simpa using hrun.symm
        subst he
        simp [wrappedStep, hT]
    | some x =>
        have he : errH = true := by simpa using hrun.symm
        subst he
        simp [wrappedStep, hT]
  have hstepD : wrappedStep adv (⟨nm, errH, bD, wt⟩ : WrappedHook ε) err0 =
      ⟨[TEv.nest ("middleware " ++ nm)] ++ (if adv then [] else [TEv.ev "middleware start" nm]) ++
         ((if adv then [] else [TEv.ev "middleware end" nm]) ++ [TEv.release]),
       true, some e⟩ := by
    cases err0 with
    | none =>
        have he : errH = false := by simpa using hrun.symm
        subst he
        simp [wrappedStep, hD, List.append_assoc]
    | some x =>
        have he : errH = true := by simpa using hrun.symm
        subst he
        simp [wrappedStep, hD, List.append_assoc]
  rw [chainLoop_cons adv pre mwNm isRoot ⟨nm, errH, bT, wt⟩ rest err0,
      chainLoop_cons adv pre mwNm isRoot ⟨nm, errH, bD, wt⟩ rest err0,
      hstepT, hstepD]
  refine ⟨rfl, by simp, ?_⟩
  exact ⟨(chainLoop adv pre mwNm isRoot false rest (some e)).trace, by simp, by simp⟩

/-- C4 witness: the amended equivalence evaluated on the concrete one-hook
chain that throws 7 versus calling `done(7)`. -/
theorem c4_sync_throw_equiv_witness :
    (chainLoop false "hook-" "m" true false
      ([⟨"h", false, fun _ => HookAction.throwSync 7, 0⟩] : List (WrappedHook Nat)) none).settle =
    (chainLoop false "hook-" "m" true false
      ([⟨"h", false, fun _ => HookAction.callDone (some 7), 0⟩] : List (WrappedHook Nat)) none).settle :=
  (c4_sync_throw_equiv_except_end_release Nat false "h" false 0
    (fun _ => HookAction.throwSync 7) (fun _ => HookAction.callDone (some 7)) none 7
    rfl rfl rfl "hook-" "m" true []).1

/-- C5: with a log-bearing request, a run never escapes with a chain
error: it always produces a settlement, the callback form receives exactly
the settlement error (`promise.then(next, next)`), and the settlement
rejects with precisely the error value still in flight at the end of the
chain — errors raised by hooks, thrown or passed to `done`, travel only
through this completion channel. -/
theorem c5_chain_errors_delivered (ε : Type) (m : Middleware ε) (rl : ReqLog) (rev : Bool) :
    ∃ o : RunOut ε,
      runFn m ⟨some rl⟩ rev = Except.ok o ∧
      (runFn m ⟨some rl⟩ rev).map (fun x => settleArg x.settle) = Except.ok (settleArg o.settle) ∧
      (∀ e : ε, o.settle = Settle.rejected e ↔
        errAfter m.advanced rev (effChain m) none = some e) := by
  refine ⟨_, rfl, rfl, ?_⟩
  intro e
  show (chainLoopFuel m.advanced (if m.advanced then "" else "hook-") m.name (!rl.hasNest) rev
      (effChain m).length (effChain m) none).settle = Settle.rejected e ↔
    errAfter m.advanced rev (effChain m) none = some e
  rw [chainLoopFuel_settle m.advanced (if m.advanced then "" else "hook-") m.name (!rl.hasNest)
    rev (effChain m).length (effChain m) none]
  cases h : errAfterFuel m.advanced rev (effChain m).length (effChain m) none with
  | none => simp [settleOfErr, errAfter, h]
  | some x => simp [settleOfErr, errAfter, h]

/-- C6: running an empty registry dispatches no hook at all and resolves
with no error. -/
theorem c6_empty_registry_resolves (ε : Type) (nm : String) (adv : Bool) (rl : ReqLog) :
    ∃ tr : List TEv,
      Middleware.run (Middleware.init ε nm adv) ⟨some rl⟩ =
        Except.ok ⟨tr, [], Settle.resolved⟩ :=
  ⟨_, rfl⟩

/-- C7: `add` throws the ESHOOK error exactly on non-callable input and
leaves the registry untouched (same length, same weight buckets), in the
two-argument and the one-argument form; a callable hook registers without
error and increments `length` by one. -/
theorem c7_add_validates_hook (ε : Type) (m : Middleware ε) (wt : Int) (d : String)
    (h : Hook ε) :
    Middleware.add m wt (JsValue.nonFunc d) =
      (m, some ⟨"ESHOOK", "Invalid hook specified. Expected a function. Received: " ++ d⟩) ∧
    (Middleware.add m wt (JsValue.nonFunc d)).1.length = m.length ∧
    (Middleware.add m wt (JsValue.nonFunc d)).1.weights = m.weights ∧
    Middleware.add1 m (JsValue.nonFunc d) =
      (m, some ⟨"ESHOOK", "Invalid hook specified. Expected a function. Received: undefined"⟩) ∧
    (Middleware.add m wt (JsValue.func h)).2 = none ∧
    (Middleware.add m wt (JsValue.func h)).1.length = m.length + 1 :=
  ⟨rfl, rfl, rfl, rfl, rfl, rfl⟩

/-- C8: registering a sequence of callable hooks through `from` is the
same registry as registering them one-by-one with `add(0, hook)`, and the
resulting execution sequence is exactly the hooks wrapped in registration
order. -/
theorem c8_from_matches_repeated_add (ε : Type) (nm : String) (adv : Bool)
    (hs : List (Hook ε)) :
    Middleware.fromHooks (Middleware.init ε nm adv) hs =
      hs.foldl (fun acc h => (Middleware.add acc 0 (JsValue.func h)).1)
        (Middleware.init ε nm adv) ∧
    effChain (Middleware.fromHooks (Middleware.init ε nm adv) hs) = specWrap hs 0 := by
  refine ⟨rfl, ?_⟩
  cases hs with
  | nil => rfl
  | cons hk t =>
      have h1 : (Middleware.add (Middleware.init ε nm adv) 0 (JsValue.func hk)).1.weights =
          [(0, [⟨if hk.name = "" then natStr 1 else hk.name, decide (4 ≤ hk.arity),
            hk.behavior, 0⟩])] := by
        simp [Middleware.add, Middleware.init, mapGet, mapPush]
      have hw := fromHooks_weights t _ _ h1
      have ho := fromHooks_ordered t (Middleware.add (Middleware.init ε nm adv) 0
        (JsValue.func hk)).1 rfl
      show effChain (Middleware.fromHooks (Middleware.add (Middleware.init ε nm adv) 0
        (JsValue.func hk)).1 t) = specWrap (hk :: t) 0
      simp only [effChain, ho]
      rw [sortedChain_single _ _ hw]
      simp [specWrap]

/-- C9: within one log span tree, every leaf event draws its index from
the single root counter: the indices are 0, 1, 2, ... in record order
across the whole tree, whatever span each event was recorded on, and they
are strictly increasing. -/
theorem c9_log_event_indices_sequential (cat : String) (ops : List LogOp) :
    (applyOps (initLog cat) ops).evts.map LeafEvt.index =
      List.range (applyOps (initLog cat) ops).evts.length ∧
    List.Pairwise (· < ·) ((applyOps (initLog cat) ops).evts.map LeafEvt.index) := by
  have h := applyOps_inv ops (initLog cat) rfl rfl
  refine ⟨h.2, ?_⟩
  rw [h.2]
  exact List.pairwise_lt_range _

/-- C10: the executor dereferences `req.log` synchronously before any
wrapper is dispatched — a request without a log member makes `run` and
`reverse` fail with a TypeError instead of producing a completion signal —
and a root run ends its trace by emitting the final report on the request
(`req.emit('log-report', ...)`). -/
theorem c10_run_requires_req_log (ε : Type) (m : Middleware ε) (rev : Bool) :
    runFn m ⟨none⟩ rev = Except.error JsErr.typeError ∧
    ∃ o : RunOut ε, runFn m ⟨some ⟨false⟩⟩ rev = Except.ok o ∧
      o.trace.getLast? = some TEv.emitReport := by
  refine ⟨rfl, _, rfl, ?_⟩
  show (([] ++ [TEv.ev ((if m.advanced then "" else "hook-") ++
      (if rev then "reverse-run" else "run")) m.name]) ++
    (chainLoopFuel m.advanced (if m.advanced then "" else "hook-") m.name true rev
      (effChain m).length (effChain m) none).trace).getLast? = some TEv.emitReport
  have h := chainLoopFuel_trace_root m.advanced (if m.advanced then "" else "hook-") m.name rev
    (effChain m).length (effChain m) none
  rw [List.getLast?_append_of_ne_nil _ h.1]
  exact h.2

end SSM
